import Mathlib

/-!
A shallow embedding of the AliceVision image cache
(`src/aliceVision/image/caching.hpp`) together with proofs of its
specification properties.

Modelling conventions:
* C++ `int` values are carried as `Int`; at the multiplication sites where
  overflow is semantically relevant (the MB-to-byte conversions in the
  `CacheMemoryUsage` constructor and the per-request size product) the result
  is reduced by `wrap32`, the two's-complement narrowing to 32 bits.
* `std::unordered_map<CacheKey, CacheValue>` becomes an association list
  (`PtrMap`); its iteration order is never observed by the code.
  `unordered_map::at` on an absent key throws; it is modelled total,
  returning the empty `CacheValue` (this situation is unreachable, see the
  structural invariant).
* `std::list<CacheKey> _keys` becomes a `List CacheKey`, ordered from LRU
  to MRU exactly as in the source.
* A `shared_ptr<Image<T>>` becomes an `ImgPtr`: an identity for the
  underlying buffer, the current `use_count`, and the buffer's byte size.
  Callers acquiring or releasing handles between cache operations are
  modelled by the `ImageCache.setRefs` environment step.
* The collaborators `readImageSize` / `readImage` / `downscaleImageInplace`
  live outside the embedded header; a `get` call receives a pure probe
  function `String → Nat × Nat` for the native dimensions and a fresh
  buffer identity for the newly decoded image.
-/

set_option maxHeartbeats 1000000
set_option maxRecDepth 8000

/-- Two's-complement narrowing of an integer to a 32-bit signed `int`
(the effect of storing an oversized product in an `int` variable). -/
def wrap32 (n : Int) : Int := (n + 2 ^ 31) % 2 ^ 32 - 2 ^ 31

/-- The OIIO base sample types occurring in cache keys
(`oiio::TypeDesc::BASETYPE` values used by the six pixel types). -/
inductive BaseType : Type
  | uint8
  | float32
deriving DecidableEq

/-- The six pixel types `TPix` for which `CacheValue::wrap`, `CacheValue::get`
and `ImageCache::get` are instantiated: `unsigned char`, `float`, `RGBColor`,
`RGBfColor`, `RGBAColor`, `RGBAfColor`. -/
inductive PixelType : Type
  | ucharPix
  | floatPix
  | rgbPix
  | rgbfPix
  | rgbaPix
  | rgbafPix
deriving DecidableEq

/-- Modelled from the spec: the channel count of each pixel type
(`ColorTypeInfo<TPix>::size`; `pixelTypes.hpp` is outside the embedded
sources). `RGB` has 3 channels, `RGBA` 4, the scalar types 1. -/
def ColorTypeInfo.size : PixelType → Nat
  | .ucharPix => 1
  | .floatPix => 1
  | .rgbPix => 3
  | .rgbfPix => 3
  | .rgbaPix => 4
  | .rgbafPix => 4

/-- Modelled from the spec: the base sample type of each pixel type
(`ColorTypeInfo<TPix>::typeDesc`; `pixelTypes.hpp` is outside the embedded
sources). The `f`-suffixed types are float-sampled, the rest 8-bit. -/
def ColorTypeInfo.typeDesc : PixelType → BaseType
  | .ucharPix => .uint8
  | .floatPix => .float32
  | .rgbPix => .uint8
  | .rgbfPix => .float32
  | .rgbaPix => .uint8
  | .rgbafPix => .float32

/-- Byte width of one sample of a base type. -/
def BaseType.byteWidth : BaseType → Nat
  | .uint8 => 1
  | .float32 => 4

/-- Modelled from the spec: `sizeof(TPix)`, the bytes of one pixel,
equals channel count times sample byte width (the pixel structs are packed
arrays of their samples). -/
def sizeofPix (pix : PixelType) : Nat :=
  ColorTypeInfo.size pix * (ColorTypeInfo.typeDesc pix).byteWidth

/-- `CacheKey`: identity of a cached image (filename, channel count, base
sample type, half-sampling level). Equality is structural over all four
fields, as in `CacheKey::operator==`. The integer fields are non-negative
in every use, hence carried as `Nat`. -/
structure CacheKey where
  filename : String
  nbChannels : Nat
  typeDesc : BaseType
  halfSampleLevel : Nat
deriving DecidableEq

/-- `CacheMemoryUsage`: the two byte thresholds and the running totals.
All four fields are C++ `int`s. -/
structure CacheMemoryUsage where
  capacity : Int
  maxSize : Int
  nbImages : Int
  contentSize : Int
deriving DecidableEq

/-- The `CacheMemoryUsage(capacity_MB, maxSize_MB)` constructor: both
thresholds are the MB arguments times the decimal factor 1,000,000, the
products narrowed to `int`; counters start at zero. No validity check
relating `capacity` and `maxSize` is performed. -/
def CacheMemoryUsage.ofMB (capacity_MB maxSize_MB : Int) : CacheMemoryUsage :=
  { capacity := wrap32 (capacity_MB * 1000000)
    maxSize := wrap32 (maxSize_MB * 1000000)
    nbImages := 0
    contentSize := 0 }

/-- A `shared_ptr<Image<TPix>>`: the identity of the underlying buffer, the
current `use_count` of the shared ownership, and the image's byte size. -/
structure ImgPtr where
  bufId : Nat
  useCount : Int
  memorySize : Int
deriving DecidableEq

/-- `CacheValue`: the type-erased holder with one optional slot per pixel
type; the private constructor leaves all six null, the `wrap` factories set
exactly one. -/
structure CacheValue where
  imgUChar : Option ImgPtr := none
  imgFloat : Option ImgPtr := none
  imgRGB : Option ImgPtr := none
  imgRGBf : Option ImgPtr := none
  imgRGBA : Option ImgPtr := none
  imgRGBAf : Option ImgPtr := none
deriving DecidableEq

/-- The six `CacheValue::wrap` factories, dispatched on the pixel type:
each stores the shared pointer in its own slot and leaves the others null. -/
def CacheValue.wrap : PixelType → ImgPtr → CacheValue
  | .ucharPix, p => { imgUChar := some p }
  | .floatPix, p => { imgFloat := some p }
  | .rgbPix, p => { imgRGB := some p }
  | .rgbfPix, p => { imgRGBf := some p }
  | .rgbaPix, p => { imgRGBA := some p }
  | .rgbafPix, p => { imgRGBAf := some p }

/-- `CacheValue::get<TPix>`: return the slot of the requested pixel type
(null unless this value was wrapped for that very type). -/
def CacheValue.get (v : CacheValue) : PixelType → Option ImgPtr
  | .ucharPix => v.imgUChar
  | .floatPix => v.imgFloat
  | .rgbPix => v.imgRGB
  | .rgbfPix => v.imgRGBf
  | .rgbaPix => v.imgRGBA
  | .rgbafPix => v.imgRGBAf

/-- The wrapped pointer of a `CacheValue`, if any (at most one slot is ever
non-null). -/
def CacheValue.slot (v : CacheValue) : Option ImgPtr :=
  v.imgUChar <|> v.imgFloat <|> v.imgRGB <|> v.imgRGBf <|> v.imgRGBA <|> v.imgRGBAf

/-- `CacheValue::useCount`: the `use_count` of the wrapped shared pointer if
there is one, otherwise 0. -/
def CacheValue.useCount (v : CacheValue) : Int :=
  match v.slot with
  | some p => p.useCount
  | none => 0

/-- `CacheValue::memorySize`: the byte size of the wrapped image if there is
one, otherwise 0. -/
def CacheValue.memorySize (v : CacheValue) : Int :=
  match v.slot with
  | some p => p.memorySize
  | none => 0

/-- The `_imagePtrs` member: `unordered_map<CacheKey, CacheValue>` as an
association list. -/
abbrev PtrMap := List (CacheKey × CacheValue)

/-- `unordered_map::at`, total: the value mapped to `k`, or the empty
`CacheValue` when absent (`at` would throw; unreachable in cache states
satisfying the structural invariant). -/
def atKey (m : PtrMap) (k : CacheKey) : CacheValue :=
  match m.find? (fun e => decide (e.1 = k)) with
  | some e => e.2
  | none => {}

/-- `unordered_map::erase(key)`: drop the entry mapped to `k`, if any. -/
def eraseKey (m : PtrMap) (k : CacheKey) : PtrMap :=
  m.eraseP (fun e => decide (e.1 = k))

/-- `unordered_map::insert({key, value})`: a no-op when the key is already
present, otherwise add the pair. -/
def insertPtr (m : PtrMap) (k : CacheKey) (v : CacheValue) : PtrMap :=
  if (m.find? (fun e => decide (e.1 = k))).isSome then m else (k, v) :: m

/-- The `ImageCache` state: memory accountant, key-to-value map, and the
`_keys` recency list ordered from LRU to MRU. -/
structure ImageCache where
  memUsage : CacheMemoryUsage
  imagePtrs : PtrMap
  keys : List CacheKey
deriving DecidableEq

/-- The `ImageCache(capacity_MB, maxSize_MB, options)` constructor: fresh
accountant, empty map, empty recency list (the read options are opaque to
the core and omitted). -/
def ImageCache.mkEmpty (capacity_MB maxSize_MB : Int) : ImageCache :=
  { memUsage := CacheMemoryUsage.ofMB capacity_MB maxSize_MB
    imagePtrs := []
    keys := [] }

/-- The per-request size computation of `ImageCache::get`:
`(width / downscale) * (height / downscale) * sizeof(TPix)` with
`downscale = 1 << halfSampleLevel`, the product narrowed to `int`.
The downscaled image produced by `load` has the same byte size. -/
def requiredBytes (pix : PixelType) (width height halfSampleLevel : Nat) : Int :=
  let downscale := 2 ^ halfSampleLevel
  wrap32 (((width / downscale) * (height / downscale) * sizeofPix pix : Nat) : Int)

/-- The key `ImageCache::get<TPix>` builds for a request: the filename, the
channel count and sample type of `TPix`, and the half-sampling level. -/
def reqKeyOf (pix : PixelType) (filename : String) (halfSampleLevel : Nat) : CacheKey :=
  ⟨filename, ColorTypeInfo.size pix, ColorTypeInfo.typeDesc pix, halfSampleLevel⟩

/-- The `memSize` of a request: `requiredBytes` applied to the probed native
dimensions of the file. -/
def memSizeOf (pix : PixelType) (probe : String → Nat × Nat) (filename : String)
    (halfSampleLevel : Nat) : Int :=
  requiredBytes pix (probe filename).1 (probe filename).2 halfSampleLevel

/-- `ImageCache::load<TPix>(key)`: decode the image (a fresh buffer, held by
the local pointer and, after `get` returns it, by the caller: `use_count`
2), downscale it in place, wrap it, insert it into the map, append its key
at the MRU end, and update the accountant. -/
def ImageCache.load (c : ImageCache) (pix : PixelType) (probe : String → Nat × Nat)
    (freshId : Nat) (key : CacheKey) : ImageCache :=
  let img : ImgPtr :=
    { bufId := freshId
      useCount := 2
      memorySize := memSizeOf pix probe key.filename key.halfSampleLevel }
  let value := CacheValue.wrap pix img
  { memUsage :=
      { c.memUsage with
        nbImages := c.memUsage.nbImages + 1
        contentSize := c.memUsage.contentSize + value.memorySize }
    imagePtrs := insertPtr c.imagePtrs key value
    keys := c.keys ++ [key] }

/-- The eviction bookkeeping shared by both passes of `ImageCache::get`:
decrement the accountant by the victim's size, erase it from the map and
from the recency list. -/
def ImageCache.evictKey (c : ImageCache) (key : CacheKey) : ImageCache :=
  let value := atKey c.imagePtrs key
  { memUsage :=
      { c.memUsage with
        nbImages := c.memUsage.nbImages - 1
        contentSize := c.memUsage.contentSize - value.memorySize }
    imagePtrs := eraseKey c.imagePtrs key
    keys := c.keys.erase key }

/-- The predicate of the multi-victim pass: the entry is not externally
referenced (`useCount() == 1`). -/
def isUnused (m : PtrMap) (k : CacheKey) : Bool :=
  decide ((atKey m k).useCount = 1)

/-- The predicate of the single-victim pass: unreferenced and at least as
large as the missing capacity. -/
def isUnusedFit (m : PtrMap) (missing : Int) (k : CacheKey) : Bool :=
  decide ((atKey m k).useCount = 1) && decide (missing ≤ (atKey m k).memorySize)

/-- The multi-victim loop of `ImageCache::get`:
`while (missingCapacity > 0) { find_if unreferenced; evict it or break }`.
The loop body never modifies `missingCapacity`, so the condition is loop
invariant; the fuel argument (instantiated with `keys.length + 1`, an upper
bound on the possible iterations) makes the recursion structural. -/
def multiEvictLoop (missingCapacity : Int) : Nat → ImageCache → ImageCache
  | 0, c => c
  | fuel + 1, c =>
    if 0 < missingCapacity then
      match c.keys.find? (isUnused c.imagePtrs) with
      | some key => multiEvictLoop missingCapacity fuel (c.evictKey key)
      | none => c
    else c

deriving instance DecidableEq for Except

/-- The observable outcome of one `ImageCache::get` call: the returned
shared pointer (or the thrown resource-exhaustion error), the cache state
after the call, and the number of `readImage` decode invocations. -/
structure GetOutcome where
  result : Except Unit (Option ImgPtr)
  state : ImageCache
  loadCalls : Nat
deriving DecidableEq

/-- `ImageCache::get<TPix>(filename, halfSampleLevel)`: build the key; on a
hit promote it to MRU and return the mapped pointer; on a miss compute the
required bytes from the probed native size, admit directly when within
capacity, otherwise run the single-victim pass, then the multi-victim pass,
admit when within `maxSize`, and otherwise throw. -/
def ImageCache.get (c : ImageCache) (pix : PixelType) (probe : String → Nat × Nat)
    (freshId : Nat) (filename : String) (halfSampleLevel : Nat) : GetOutcome :=
  let reqKey : CacheKey := reqKeyOf pix filename halfSampleLevel
  if reqKey ∈ c.keys then
    { result := .ok ((atKey c.imagePtrs reqKey).get pix)
      state := { c with keys := (c.keys.erase reqKey) ++ [reqKey] }
      loadCalls := 0 }
  else
    let memSize := memSizeOf pix probe filename halfSampleLevel
    if memSize + c.memUsage.contentSize ≤ c.memUsage.capacity then
      let c1 := c.load pix probe freshId reqKey
      { result := .ok ((atKey c1.imagePtrs reqKey).get pix), state := c1, loadCalls := 1 }
    else
      let missingCapacity := memSize + c.memUsage.contentSize - c.memUsage.capacity
      match c.keys.find? (isUnusedFit c.imagePtrs missingCapacity) with
      | some key =>
        let c1 := (c.evictKey key).load pix probe freshId reqKey
        { result := .ok ((atKey c1.imagePtrs reqKey).get pix), state := c1, loadCalls := 1 }
      | none =>
        let c2 := multiEvictLoop missingCapacity (c.keys.length + 1) c
        if memSize + c2.memUsage.contentSize ≤ c2.memUsage.maxSize then
          let c1 := c2.load pix probe freshId reqKey
          { result := .ok ((atKey c1.imagePtrs reqKey).get pix), state := c1, loadCalls := 1 }
        else
          { result := .error (), state := c2, loadCalls := 0 }

/-- Apply a function to every wrapped pointer of a `CacheValue`. -/
def CacheValue.mapPtr (f : ImgPtr → ImgPtr) (v : CacheValue) : CacheValue :=
  { imgUChar := v.imgUChar.map f
    imgFloat := v.imgFloat.map f
    imgRGB := v.imgRGB.map f
    imgRGBf := v.imgRGBf.map f
    imgRGBA := v.imgRGBA.map f
    imgRGBAf := v.imgRGBAf.map f }

/-- Environment step between cache operations: outside callers acquire or
release handles, changing each wrapped pointer's `use_count` (chosen here
per buffer identity); nothing owned by the cache itself changes. -/
def ImageCache.setRefs (c : ImageCache) (f : Nat → Int) : ImageCache :=
  { c with
    imagePtrs := c.imagePtrs.map
      (fun e => (e.1, e.2.mapPtr (fun p => { p with useCount := f p.bufId }))) }

/-- The cache states reachable from construction through completed `get`
calls and environment handle-count changes. -/
inductive Reachable : ImageCache → Prop
  | mkEmpty (capacity_MB maxSize_MB : Int) :
      Reachable (ImageCache.mkEmpty capacity_MB maxSize_MB)
  | get (pix : PixelType) (probe : String → Nat × Nat) (freshId : Nat)
      (filename : String) (halfSampleLevel : Nat) {c : ImageCache} :
      Reachable c → Reachable (c.get pix probe freshId filename halfSampleLevel).state
  | setRefs (f : Nat → Int) {c : ImageCache} :
      Reachable c → Reachable (c.setRefs f)

/-- Total byte size of the entries of a map. -/
def sumSizes (m : PtrMap) : Int := (m.map (fun e => e.2.memorySize)).sum

/-- A map entry is well typed: its value was produced by the `wrap` factory
of some pixel type whose channel count and sample type are the ones recorded
in the key. -/
def WellTyped (e : CacheKey × CacheValue) : Prop :=
  ∃ pix img, e.2 = CacheValue.wrap pix img ∧
    e.1.nbChannels = ColorTypeInfo.size pix ∧ e.1.typeDesc = ColorTypeInfo.typeDesc pix

/-- The structural invariant of the cache: recency list and map carry the
same keys (as a permutation, both duplicate-free), the accountant's counters
match the map, and every entry is well typed. -/
def StrongInv (c : ImageCache) : Prop :=
  c.keys.Perm (c.imagePtrs.map Prod.fst) ∧
  c.keys.Nodup ∧
  c.memUsage.nbImages = (c.imagePtrs.length : Int) ∧
  c.memUsage.contentSize = sumSizes c.imagePtrs ∧
  ∀ e ∈ c.imagePtrs, WellTyped e

/-! ### Concrete fixtures used to evaluate the embedding on closed inputs -/

/-- A concrete probe: file `r` is 4x1, file `a` is 5x1, all others 3x1. -/
def probeW : String → Nat × Nat :=
  fun s => if s = "r" then (4, 1) else if s = "a" then (5, 1) else (3, 1)

/-- A single-channel 8-bit cache value wrapping buffer `i` with the given
`use_count` and byte size. -/
def ucharVal (i : Nat) (uc sz : Int) : CacheValue :=
  CacheValue.wrap .ucharPix ⟨i, uc, sz⟩

/-- Key of file `a` as a 1-channel 8-bit image at level 0. -/
def kA : CacheKey := ⟨"a", 1, .uint8, 0⟩

/-- Key of file `b` as a 1-channel 8-bit image at level 0. -/
def kB : CacheKey := ⟨"b", 1, .uint8, 0⟩

/-- Key of file `c` as a 1-channel 8-bit image at level 0. -/
def kC : CacheKey := ⟨"c", 1, .uint8, 0⟩

/-- Key of file `d` as a 1-channel 8-bit image at level 0. -/
def kD : CacheKey := ⟨"d", 1, .uint8, 0⟩

/-- Key of file `p` as a 1-channel 8-bit image at level 0. -/
def kP : CacheKey := ⟨"p", 1, .uint8, 0⟩

/-- Key of file `q` as a 1-channel 8-bit image at level 0. -/
def kQ : CacheKey := ⟨"q", 1, .uint8, 0⟩

/-- Three unreferenced 3-byte entries filling a 9-byte capacity: the next
4-byte request has `missing = 4`, no single entry is big enough, and two
evictions would already cover the deficit. -/
def cMulti : ImageCache :=
  { memUsage := ⟨9, 1000, 3, 9⟩
    imagePtrs := [(kB, ucharVal 1 1 3), (kC, ucharVal 2 1 3), (kD, ucharVal 3 1 3)]
    keys := [kB, kC, kD] }

/-- One unreferenced 5-byte entry; a 4-byte request with capacity 8 leaves
`missing = 1` and the entry is the single victim. -/
def cSingle : ImageCache :=
  { memUsage := ⟨8, 20, 1, 5⟩
    imagePtrs := [(kA, ucharVal 1 1 5)]
    keys := [kA] }

/-- Scenario C: an older externally referenced entry `p` (use count 2) and a
younger unreferenced entry `q`, each 4 bytes; a 4-byte request with capacity
10 leaves `missing = 2`, covered by `q` alone. -/
def cScenC : ImageCache :=
  { memUsage := ⟨10, 30, 2, 8⟩
    imagePtrs := [(kP, ucharVal 1 2 4), (kQ, ucharVal 2 1 4)]
    keys := [kP, kQ] }

/-- A single externally referenced 5-byte entry with `capacity = maxSize = 8`:
a 4-byte request cannot be accommodated and nothing is evictable. -/
def cAllRef : ImageCache :=
  { memUsage := ⟨8, 8, 1, 5⟩
    imagePtrs := [(kP, ucharVal 1 2 5)]
    keys := [kP] }

/-- A single externally referenced 5-byte entry with capacity 8 but
`maxSize = 20`: a 4-byte request exceeds the capacity, nothing is evictable,
yet the request still fits under the hard ceiling. -/
def cRefAdmit : ImageCache :=
  { memUsage := ⟨8, 20, 1, 5⟩
    imagePtrs := [(kP, ucharVal 1 2 5)]
    keys := [kP] }

/-! ### Basic lemmas about `CacheValue` and the association-list map -/

theorem CacheValue.get_wrap_self (pix : PixelType) (img : ImgPtr) :
    (CacheValue.wrap pix img).get pix = some img := by
  cases pix <;> rfl

theorem CacheValue.memorySize_wrap (pix : PixelType) (img : ImgPtr) :
    (CacheValue.wrap pix img).memorySize = img.memorySize := by
  cases pix <;> rfl

theorem CacheValue.useCount_wrap (pix : PixelType) (img : ImgPtr) :
    (CacheValue.wrap pix img).useCount = img.useCount := by
  cases pix <;> rfl

theorem CacheValue.mapPtr_wrap (f : ImgPtr → ImgPtr) (pix : PixelType) (img : ImgPtr) :
    (CacheValue.wrap pix img).mapPtr f = CacheValue.wrap pix (f img) := by
  cases pix <;> rfl

theorem pixInfo_injective (p q : PixelType)
    (hs : ColorTypeInfo.size p = ColorTypeInfo.size q)
    (ht : ColorTypeInfo.typeDesc p = ColorTypeInfo.typeDesc q) : p = q := by
  cases p <;> cases q <;> first | rfl | simp_all [ColorTypeInfo.size, ColorTypeInfo.typeDesc]

theorem atKey_cons_self (k : CacheKey) (v : CacheValue) (m : PtrMap) :
    atKey ((k, v) :: m) k = v := by
  simp [atKey, List.find?_cons_of_pos]

theorem atKey_cons_ne {k' k : CacheKey} (v : CacheValue) (m : PtrMap) (h : k' ≠ k) :
    atKey ((k', v) :: m) k = atKey m k := by
  simp [atKey, List.find?_cons_of_neg, h]

theorem mem_of_atKey (m : PtrMap) (k : CacheKey) (h : k ∈ m.map Prod.fst) :
    (k, atKey m k) ∈ m := by
  induction m with
  | nil => simp at h
  | cons e m ih =>
    obtain ⟨k₁, v₁⟩ := e
    by_cases hk : k₁ = k
    · subst hk
      rw [atKey_cons_self]
      exact List.mem_cons_self _ _
    · rw [atKey_cons_ne _ _ hk]
      have : k ∈ m.map Prod.fst := by
        rcases List.mem_map.mp h with ⟨e', he', hfst⟩
        rcases List.mem_cons.mp he' with h1 | h2
        · exact absurd (by rw [h1] at hfst; exact hfst) hk
        · exact List.mem_map.mpr ⟨e', h2, hfst⟩
      exact List.mem_cons_of_mem _ (ih this)

theorem atKey_eraseKey_ne (m : PtrMap) {k k' : CacheKey} (h : k ≠ k') :
    atKey (eraseKey m k') k = atKey m k := by
  induction m with
  | nil => rfl
  | cons e m ih =>
    obtain ⟨k₁, v₁⟩ := e
    by_cases hk : k₁ = k'
    · rw [eraseKey, List.eraseP_cons_of_pos (by simp [hk])]
      rw [atKey_cons_ne _ _ (by rw [hk]; exact fun hh => h hh.symm)]
    · rw [eraseKey, List.eraseP_cons_of_neg (by simp [hk])]
      by_cases hk2 : k₁ = k
      · subst hk2; rw [atKey_cons_self, atKey_cons_self]
      · rw [atKey_cons_ne _ _ hk2, atKey_cons_ne _ _ hk2]
        exact ih

theorem map_fst_eraseKey (m : PtrMap) (k : CacheKey) :
    (eraseKey m k).map Prod.fst = (m.map Prod.fst).erase k := by
  induction m with
  | nil => rfl
  | cons e m ih =>
    obtain ⟨k₁, v₁⟩ := e
    by_cases hk : k₁ = k
    · subst hk
      rw [eraseKey, List.eraseP_cons_of_pos (by simp)]
      simp [List.erase_cons_head]
    · rw [eraseKey, List.eraseP_cons_of_neg (by simp [hk])]
      simp only [List.map_cons]
      rw [List.erase_cons_tail (by simpa using hk)]
      rw [← ih]
      rfl

theorem sumSizes_cons (e : CacheKey × CacheValue) (m : PtrMap) :
    sumSizes (e :: m) = e.2.memorySize + sumSizes m := by
  simp [sumSizes]

theorem sumSizes_eraseKey (m : PtrMap) (k : CacheKey) (h : k ∈ m.map Prod.fst) :
    sumSizes m = sumSizes (eraseKey m k) + (atKey m k).memorySize := by
  induction m with
  | nil => simp at h
  | cons e m ih =>
    obtain ⟨k₁, v₁⟩ := e
    by_cases hk : k₁ = k
    · subst hk
      rw [eraseKey, List.eraseP_cons_of_pos (by simp), atKey_cons_self, sumSizes_cons]
      show v₁.memorySize + sumSizes m = sumSizes m + v₁.memorySize
      omega
    · have hmem : k ∈ m.map Prod.fst := by
        rcases List.mem_map.mp h with ⟨e', he', hfst⟩
        rcases List.mem_cons.mp he' with h1 | h2
        · exact absurd (by rw [h1] at hfst; exact hfst) hk
        · exact List.mem_map.mpr ⟨e', h2, hfst⟩
      rw [eraseKey, List.eraseP_cons_of_neg (by simp [hk]), atKey_cons_ne _ _ hk,
        sumSizes_cons, sumSizes_cons]
      have h2 := ih hmem
      rw [eraseKey] at h2
      omega

theorem length_eraseKey (m : PtrMap) (k : CacheKey) (h : k ∈ m.map Prod.fst) :
    (eraseKey m k).length + 1 = m.length := by
  induction m with
  | nil => simp at h
  | cons e m ih =>
    obtain ⟨k₁, v₁⟩ := e
    by_cases hk : k₁ = k
    · rw [eraseKey, List.eraseP_cons_of_pos (by simp [hk])]
      simp
    · have hmem : k ∈ m.map Prod.fst := by
        rcases List.mem_map.mp h with ⟨e', he', hfst⟩
        rcases List.mem_cons.mp he' with h1 | h2
        · exact absurd (by rw [h1] at hfst; exact hfst) hk
        · exact List.mem_map.mpr ⟨e', h2, hfst⟩
      rw [eraseKey, List.eraseP_cons_of_neg (by simp [hk])]
      simpa using ih hmem

theorem eraseKey_subset (m : PtrMap) (k : CacheKey) : eraseKey m k ⊆ m :=
  List.eraseP_subset _

theorem insertPtr_of_not_mem (m : PtrMap) (k : CacheKey) (v : CacheValue)
    (h : k ∉ m.map Prod.fst) : insertPtr m k v = (k, v) :: m := by
  rw [insertPtr, if_neg]
  rw [Option.isSome_iff_exists]
  rintro ⟨e, he⟩
  have hmem := List.mem_of_find?_eq_some he
  have hp : e.1 = k := by simpa using List.find?_some he
  exact h (List.mem_map.mpr ⟨e, hmem, hp⟩)

/-! ### Branch characterizations of `ImageCache.get` and the eviction loop -/

theorem maxSize_multiEvictLoop (missing : Int) (fuel : Nat) (c : ImageCache) :
    (multiEvictLoop missing fuel c).memUsage.maxSize = c.memUsage.maxSize := by
  induction fuel generalizing c with
  | zero => rfl
  | succ fuel ih =>
    rw [multiEvictLoop]
    by_cases hpos : 0 < missing
    · rw [if_pos hpos]
      cases hfind : c.keys.find? (isUnused c.imagePtrs) with
      | some key => rw [ih]; rfl
      | none => rfl
    · rw [if_neg hpos]

theorem capacity_multiEvictLoop (missing : Int) (fuel : Nat) (c : ImageCache) :
    (multiEvictLoop missing fuel c).memUsage.capacity = c.memUsage.capacity := by
  induction fuel generalizing c with
  | zero => rfl
  | succ fuel ih =>
    rw [multiEvictLoop]
    by_cases hpos : 0 < missing
    · rw [if_pos hpos]
      cases hfind : c.keys.find? (isUnused c.imagePtrs) with
      | some key => rw [ih]; rfl
      | none => rfl
    · rw [if_neg hpos]

theorem keys_multiEvictLoop_subset (missing : Int) (fuel : Nat) (c : ImageCache) :
    (multiEvictLoop missing fuel c).keys ⊆ c.keys := by
  induction fuel generalizing c with
  | zero => exact fun _ h => h
  | succ fuel ih =>
    rw [multiEvictLoop]
    by_cases hpos : 0 < missing
    · rw [if_pos hpos]
      cases hfind : c.keys.find? (isUnused c.imagePtrs) with
      | some key =>
        exact fun k hk => List.erase_subset _ _ (ih (c.evictKey key) hk)
      | none => exact fun _ h => h
    · rw [if_neg hpos]
      exact fun _ h => h

theorem imagePtrs_multiEvictLoop_subset (missing : Int) (fuel : Nat) (c : ImageCache) :
    (multiEvictLoop missing fuel c).imagePtrs ⊆ c.imagePtrs := by
  induction fuel generalizing c with
  | zero => exact fun _ h => h
  | succ fuel ih =>
    rw [multiEvictLoop]
    by_cases hpos : 0 < missing
    · rw [if_pos hpos]
      cases hfind : c.keys.find? (isUnused c.imagePtrs) with
      | some key =>
        exact fun e he => eraseKey_subset c.imagePtrs key (ih (c.evictKey key) he)
      | none => exact fun _ h => h
    · rw [if_neg hpos]
      exact fun _ h => h

theorem multiEvictLoop_of_find?_none (missing : Int) (fuel : Nat) (c : ImageCache)
    (h : c.keys.find? (isUnused c.imagePtrs) = none) :
    multiEvictLoop missing fuel c = c := by
  cases fuel with
  | zero => rfl
  | succ fuel =>
    rw [multiEvictLoop]
    by_cases hpos : 0 < missing
    · rw [if_pos hpos, h]
    · rw [if_neg hpos]

theorem multiEvictLoop_evicts_only_unused (missing : Int) (fuel : Nat) (c : ImageCache)
    (k : CacheKey) (hin : k ∈ c.keys) (hout : k ∉ (multiEvictLoop missing fuel c).keys) :
    (atKey c.imagePtrs k).useCount = 1 := by
  induction fuel generalizing c with
  | zero => exact absurd hin hout
  | succ fuel ih =>
    rw [multiEvictLoop] at hout
    by_cases hpos : 0 < missing
    · rw [if_pos hpos] at hout
      cases hfind : c.keys.find? (isUnused c.imagePtrs) with
      | some key =>
        rw [hfind] at hout
        by_cases hk : k = key
        · subst hk
          have := List.find?_some hfind
          simpa [isUnused] using this
        · have hin' : k ∈ (c.evictKey key).keys := (List.mem_erase_of_ne hk).mpr hin
          have := ih (c.evictKey key) hin' hout
          rwa [ImageCache.evictKey, atKey_eraseKey_ne _ hk] at this
      | none =>
        rw [hfind] at hout
        exact absurd hin hout
    · rw [if_neg hpos] at hout
      exact absurd hin hout

theorem ImageCache.get_hit (c : ImageCache) (pix : PixelType) (probe : String → Nat × Nat)
    (freshId : Nat) (filename : String) (lvl : Nat)
    (h : reqKeyOf pix filename lvl ∈ c.keys) :
    c.get pix probe freshId filename lvl =
      { result := .ok ((atKey c.imagePtrs (reqKeyOf pix filename lvl)).get pix)
        state :=
          { c with keys := (c.keys.erase (reqKeyOf pix filename lvl)) ++ [reqKeyOf pix filename lvl] }
        loadCalls := 0 } := by
  simp only [ImageCache.get]
  rw [if_pos h]

theorem ImageCache.get_miss_fits (c : ImageCache) (pix : PixelType)
    (probe : String → Nat × Nat) (freshId : Nat) (filename : String) (lvl : Nat)
    (h1 : reqKeyOf pix filename lvl ∉ c.keys)
    (h2 : memSizeOf pix probe filename lvl + c.memUsage.contentSize ≤ c.memUsage.capacity) :
    c.get pix probe freshId filename lvl =
      { result :=
          .ok ((atKey (c.load pix probe freshId (reqKeyOf pix filename lvl)).imagePtrs
            (reqKeyOf pix filename lvl)).get pix)
        state := c.load pix probe freshId (reqKeyOf pix filename lvl)
        loadCalls := 1 } := by
  simp only [ImageCache.get]
  rw [if_neg h1, if_pos h2]

theorem ImageCache.get_miss_single (c : ImageCache) (pix : PixelType)
    (probe : String → Nat × Nat) (freshId : Nat) (filename : String) (lvl : Nat)
    (key : CacheKey)
    (h1 : reqKeyOf pix filename lvl ∉ c.keys)
    (h2 : ¬ memSizeOf pix probe filename lvl + c.memUsage.contentSize ≤ c.memUsage.capacity)
    (h3 : c.keys.find? (isUnusedFit c.imagePtrs
      (memSizeOf pix probe filename lvl + c.memUsage.contentSize - c.memUsage.capacity)) =
      some key) :
    c.get pix probe freshId filename lvl =
      { result :=
          .ok ((atKey ((c.evictKey key).load pix probe freshId (reqKeyOf pix filename lvl)).imagePtrs
            (reqKeyOf pix filename lvl)).get pix)
        state := (c.evictKey key).load pix probe freshId (reqKeyOf pix filename lvl)
        loadCalls := 1 } := by
  simp only [ImageCache.get]
  rw [if_neg h1, if_neg h2, h3]

theorem ImageCache.get_miss_multi_fits (c : ImageCache) (pix : PixelType)
    (probe : String → Nat × Nat) (freshId : Nat) (filename : String) (lvl : Nat)
    (h1 : reqKeyOf pix filename lvl ∉ c.keys)
    (h2 : ¬ memSizeOf pix probe filename lvl + c.memUsage.contentSize ≤ c.memUsage.capacity)
    (h3 : c.keys.find? (isUnusedFit c.imagePtrs
      (memSizeOf pix probe filename lvl + c.memUsage.contentSize - c.memUsage.capacity)) = none)
    (h4 : memSizeOf pix probe filename lvl +
        (multiEvictLoop (memSizeOf pix probe filename lvl + c.memUsage.contentSize -
          c.memUsage.capacity) (c.keys.length + 1) c).memUsage.contentSize ≤
      c.memUsage.maxSize) :
    c.get pix probe freshId filename lvl =
      { result :=
          .ok ((atKey ((multiEvictLoop (memSizeOf pix probe filename lvl + c.memUsage.contentSize -
              c.memUsage.capacity) (c.keys.length + 1) c).load pix probe freshId
              (reqKeyOf pix filename lvl)).imagePtrs (reqKeyOf pix filename lvl)).get pix)
        state := (multiEvictLoop (memSizeOf pix probe filename lvl + c.memUsage.contentSize -
            c.memUsage.capacity) (c.keys.length + 1) c).load pix probe freshId
            (reqKeyOf pix filename lvl)
        loadCalls := 1 } := by
  have hmax : (multiEvictLoop (memSizeOf pix probe filename lvl + c.memUsage.contentSize -
      c.memUsage.capacity) (c.keys.length + 1) c).memUsage.maxSize = c.memUsage.maxSize := by
    exact maxSize_multiEvictLoop ..
  simp only [ImageCache.get]
  rw [if_neg h1, if_neg h2, h3]
  simp only []
  rw [if_pos (by rw [hmax]; exact h4)]

theorem ImageCache.get_miss_multi_throw (c : ImageCache) (pix : PixelType)
    (probe : String → Nat × Nat) (freshId : Nat) (filename : String) (lvl : Nat)
    (h1 : reqKeyOf pix filename lvl ∉ c.keys)
    (h2 : ¬ memSizeOf pix probe filename lvl + c.memUsage.contentSize ≤ c.memUsage.capacity)
    (h3 : c.keys.find? (isUnusedFit c.imagePtrs
      (memSizeOf pix probe filename lvl + c.memUsage.contentSize - c.memUsage.capacity)) = none)
    (h4 : ¬ memSizeOf pix probe filename lvl +
        (multiEvictLoop (memSizeOf pix probe filename lvl + c.memUsage.contentSize -
          c.memUsage.capacity) (c.keys.length + 1) c).memUsage.contentSize ≤
      c.memUsage.maxSize) :
    c.get pix probe freshId filename lvl =
      { result := .error ()
        state := multiEvictLoop (memSizeOf pix probe filename lvl + c.memUsage.contentSize -
          c.memUsage.capacity) (c.keys.length + 1) c
        loadCalls := 0 } := by
  have hmax : (multiEvictLoop (memSizeOf pix probe filename lvl + c.memUsage.contentSize -
      c.memUsage.capacity) (c.keys.length + 1) c).memUsage.maxSize = c.memUsage.maxSize := by
    exact maxSize_multiEvictLoop ..
  simp only [ImageCache.get]
  rw [if_neg h1, if_neg h2, h3]
  simp only []
  rw [if_neg (by rw [hmax]; exact h4)]

/-! ### Preservation of the structural invariant -/

theorem inv_evictKey {c : ImageCache} (h : StrongInv c) {key : CacheKey}
    (hk : key ∈ c.keys) : StrongInv (c.evictKey key) := by
  obtain ⟨hperm, hnd, hcount, hsum, hwt⟩ := h
  have hk' : key ∈ c.imagePtrs.map Prod.fst := hperm.mem_iff.mp hk
  refine ⟨?_, ?_, ?_, ?_, ?_⟩
  · show (c.keys.erase key).Perm ((eraseKey c.imagePtrs key).map Prod.fst)
    rw [map_fst_eraseKey]
    exact hperm.erase key
  · exact hnd.erase key
  · show c.memUsage.nbImages - 1 = ((eraseKey c.imagePtrs key).length : Int)
    have hlen := length_eraseKey c.imagePtrs key hk'
    omega
  · show c.memUsage.contentSize - (atKey c.imagePtrs key).memorySize =
      sumSizes (eraseKey c.imagePtrs key)
    have := sumSizes_eraseKey c.imagePtrs key hk'
    omega
  · intro e he
    exact hwt e (eraseKey_subset _ _ he)

theorem inv_load {c : ImageCache} (h : StrongInv c) (pix : PixelType)
    (probe : String → Nat × Nat) (freshId : Nat) {key : CacheKey}
    (hk : key ∉ c.keys)
    (hch : key.nbChannels = ColorTypeInfo.size pix)
    (htd : key.typeDesc = ColorTypeInfo.typeDesc pix) :
    StrongInv (c.load pix probe freshId key) := by
  obtain ⟨hperm, hnd, hcount, hsum, hwt⟩ := h
  have hk' : key ∉ c.imagePtrs.map Prod.fst := fun hm => hk (hperm.mem_iff.mpr hm)
  have hins := insertPtr_of_not_mem c.imagePtrs key
    (CacheValue.wrap pix ⟨freshId, 2, memSizeOf pix probe key.filename key.halfSampleLevel⟩) hk'
  refine ⟨?_, ?_, ?_, ?_, ?_⟩
  · show (c.keys ++ [key]).Perm ((insertPtr c.imagePtrs key _).map Prod.fst)
    rw [hins]
    exact (List.perm_append_singleton key c.keys).trans (hperm.cons key)
  · show (c.keys ++ [key]).Nodup
    exact (List.perm_append_singleton key c.keys).nodup_iff.mpr (List.nodup_cons.mpr ⟨hk, hnd⟩)
  · show c.memUsage.nbImages + 1 = ((insertPtr c.imagePtrs key _).length : Int)
    rw [hins]
    simp only [List.length_cons]
    omega
  · show c.memUsage.contentSize + (CacheValue.wrap pix _).memorySize =
      sumSizes (insertPtr c.imagePtrs key _)
    rw [hins, sumSizes_cons]
    show c.memUsage.contentSize + (CacheValue.wrap pix _).memorySize =
      (CacheValue.wrap pix _).memorySize + sumSizes c.imagePtrs
    omega
  · intro e he
    have he' : e ∈ insertPtr c.imagePtrs key
        (CacheValue.wrap pix ⟨freshId, 2,
          memSizeOf pix probe key.filename key.halfSampleLevel⟩) := he
    rw [hins] at he'
    rcases List.mem_cons.mp he' with h1 | h2
    · exact ⟨pix, _, by rw [h1], by rw [h1]; exact hch, by rw [h1]; exact htd⟩
    · exact hwt e h2

theorem inv_multiEvictLoop {c : ImageCache} (h : StrongInv c) (missing : Int) (fuel : Nat) :
    StrongInv (multiEvictLoop missing fuel c) := by
  induction fuel generalizing c with
  | zero => exact h
  | succ fuel ih =>
    rw [multiEvictLoop]
    by_cases hpos : 0 < missing
    · rw [if_pos hpos]
      cases hfind : c.keys.find? (isUnused c.imagePtrs) with
      | some key => exact ih (inv_evictKey h (List.mem_of_find?_eq_some hfind))
      | none => exact h
    · rw [if_neg hpos]
      exact h

theorem inv_setRefs {c : ImageCache} (h : StrongInv c) (f : Nat → Int) :
    StrongInv (c.setRefs f) := by
  obtain ⟨hperm, hnd, hcount, hsum, hwt⟩ := h
  have hfst : (c.imagePtrs.map
      (fun e => (e.1, e.2.mapPtr (fun p => { p with useCount := f p.bufId })))).map Prod.fst =
      c.imagePtrs.map Prod.fst := by
    rw [List.map_map]
    rfl
  refine ⟨?_, hnd, ?_, ?_, ?_⟩
  · show c.keys.Perm ((c.imagePtrs.map
      (fun e => (e.1, e.2.mapPtr (fun p => { p with useCount := f p.bufId })))).map Prod.fst)
    rw [hfst]
    exact hperm
  · show c.memUsage.nbImages = ((c.imagePtrs.map
      (fun e => (e.1, e.2.mapPtr (fun p => { p with useCount := f p.bufId })))).length : Int)
    rw [List.length_map]
    exact hcount
  · show c.memUsage.contentSize = sumSizes (c.imagePtrs.map
      (fun e => (e.1, e.2.mapPtr (fun p => { p with useCount := f p.bufId }))))
    rw [hsum, sumSizes, sumSizes, List.map_map]
    congr 1
    refine List.map_congr_left ?_
    intro e he
    obtain ⟨pix, img, hwrap, -, -⟩ := hwt e he
    show e.2.memorySize =
      (CacheValue.mapPtr (fun p => { p with useCount := f p.bufId }) e.2).memorySize
    rw [hwrap, CacheValue.mapPtr_wrap, CacheValue.memorySize_wrap, CacheValue.memorySize_wrap]
  · intro e he
    have he' : e ∈ c.imagePtrs.map
        (fun e => (e.1, e.2.mapPtr (fun p => { p with useCount := f p.bufId }))) := he
    rcases List.mem_map.mp he' with ⟨e₁, he₁, hmap⟩
    obtain ⟨pix, img, hwrap, hch, htd⟩ := hwt e₁ he₁
    refine ⟨pix, { img with useCount := f img.bufId }, ?_, ?_, ?_⟩
    · rw [← hmap]
      show (e₁.2.mapPtr fun p => { p with useCount := f p.bufId }) = _
      rw [hwrap, CacheValue.mapPtr_wrap]
    · rw [← hmap]
      exact hch
    · rw [← hmap]
      exact htd

theorem inv_get {c : ImageCache} (h : StrongInv c) (pix : PixelType)
    (probe : String → Nat × Nat) (freshId : Nat) (filename : String) (lvl : Nat) :
    StrongInv (c.get pix probe freshId filename lvl).state := by
  by_cases hmem : reqKeyOf pix filename lvl ∈ c.keys
  · rw [ImageCache.get_hit c pix probe freshId filename lvl hmem]
    obtain ⟨hperm, hnd, hcount, hsum, hwt⟩ := h
    have hp : (c.keys.erase (reqKeyOf pix filename lvl) ++ [reqKeyOf pix filename lvl]).Perm
        c.keys :=
      (List.perm_append_singleton _ _).trans (List.perm_cons_erase hmem).symm
    exact ⟨hp.trans hperm, hp.nodup_iff.mpr hnd, hcount, hsum, hwt⟩
  · by_cases h2 : memSizeOf pix probe filename lvl + c.memUsage.contentSize ≤
        c.memUsage.capacity
    · rw [ImageCache.get_miss_fits c pix probe freshId filename lvl hmem h2]
      exact inv_load h pix probe freshId hmem rfl rfl
    · cases hfind : c.keys.find? (isUnusedFit c.imagePtrs
          (memSizeOf pix probe filename lvl + c.memUsage.contentSize -
            c.memUsage.capacity)) with
      | some key =>
        rw [ImageCache.get_miss_single c pix probe freshId filename lvl key hmem h2 hfind]
        have hkmem : key ∈ c.keys := List.mem_of_find?_eq_some hfind
        refine inv_load (inv_evictKey h hkmem) pix probe freshId ?_ rfl rfl
        intro hmem2
        exact hmem (List.mem_of_mem_erase hmem2)
      | none =>
        by_cases h4 : memSizeOf pix probe filename lvl +
            (multiEvictLoop (memSizeOf pix probe filename lvl + c.memUsage.contentSize -
              c.memUsage.capacity) (c.keys.length + 1) c).memUsage.contentSize ≤
            c.memUsage.maxSize
        · rw [ImageCache.get_miss_multi_fits c pix probe freshId filename lvl hmem h2 hfind h4]
          refine inv_load (inv_multiEvictLoop h _ _) pix probe freshId ?_ rfl rfl
          intro hmem2
          exact hmem (keys_multiEvictLoop_subset _ _ _ hmem2)
        · rw [ImageCache.get_miss_multi_throw c pix probe freshId filename lvl hmem h2 hfind h4]
          dsimp only
          exact inv_multiEvictLoop h _ _

theorem reachable_inv {c : ImageCache} (h : Reachable c) : StrongInv c := by
  induction h with
  | mkEmpty capacity_MB maxSize_MB =>
    exact ⟨List.Perm.refl _, List.nodup_nil, rfl, rfl,
      by intro e he; exact absurd he (List.not_mem_nil e)⟩
  | get pix probe freshId filename lvl _ ih => exact inv_get ih pix probe freshId filename lvl
  | setRefs f _ ih => exact inv_setRefs ih f

/-! ### Further helper lemmas -/

theorem wrap32_eq_self {n : Int} (h1 : -(2 ^ 31) ≤ n) (h2 : n < 2 ^ 31) : wrap32 n = n := by
  have hp : ((2 : Int) ^ 31) = 2147483648 := by norm_num
  have hq : ((2 : Int) ^ 32) = 4294967296 := by norm_num
  rw [hp] at h1 h2
  rw [wrap32, hp, hq]
  have hmod : (n + 2147483648) % 4294967296 = n + 2147483648 :=
    Int.emod_eq_of_lt (by omega) (by omega)
  omega

theorem ImageCache.load_keys (c : ImageCache) (pix : PixelType) (probe : String → Nat × Nat)
    (freshId : Nat) (key : CacheKey) :
    (c.load pix probe freshId key).keys = c.keys ++ [key] := rfl

theorem ImageCache.load_imagePtrs (c : ImageCache) (pix : PixelType)
    (probe : String → Nat × Nat) (freshId : Nat) (key : CacheKey) :
    (c.load pix probe freshId key).imagePtrs =
      insertPtr c.imagePtrs key (CacheValue.wrap pix
        ⟨freshId, 2, memSizeOf pix probe key.filename key.halfSampleLevel⟩) := rfl

theorem ImageCache.load_nbImages (c : ImageCache) (pix : PixelType)
    (probe : String → Nat × Nat) (freshId : Nat) (key : CacheKey) :
    (c.load pix probe freshId key).memUsage.nbImages = c.memUsage.nbImages + 1 := rfl

theorem ImageCache.load_contentSize (c : ImageCache) (pix : PixelType)
    (probe : String → Nat × Nat) (freshId : Nat) (key : CacheKey) :
    (c.load pix probe freshId key).memUsage.contentSize =
      c.memUsage.contentSize + memSizeOf pix probe key.filename key.halfSampleLevel := by
  show c.memUsage.contentSize + (CacheValue.wrap pix
    ⟨freshId, 2, memSizeOf pix probe key.filename key.halfSampleLevel⟩).memorySize = _
  rw [CacheValue.memorySize_wrap]

theorem ImageCache.evictKey_keys (c : ImageCache) (key : CacheKey) :
    (c.evictKey key).keys = c.keys.erase key := rfl

theorem ImageCache.evictKey_imagePtrs (c : ImageCache) (key : CacheKey) :
    (c.evictKey key).imagePtrs = eraseKey c.imagePtrs key := rfl

theorem atKey_insertPtr_ne (m : PtrMap) (K : CacheKey) (val : CacheValue) (k : CacheKey)
    (h : K ≠ k) : atKey (insertPtr m K val) k = atKey m k := by
  rw [insertPtr]
  split
  · rfl
  · exact atKey_cons_ne _ _ h

theorem atKey_load_self (c : ImageCache) (pix : PixelType) (probe : String → Nat × Nat)
    (freshId : Nat) (key : CacheKey) (h : key ∉ c.imagePtrs.map Prod.fst) :
    atKey (c.load pix probe freshId key).imagePtrs key =
      CacheValue.wrap pix ⟨freshId, 2, memSizeOf pix probe key.filename key.halfSampleLevel⟩ := by
  rw [ImageCache.load_imagePtrs, insertPtr_of_not_mem _ _ _ h, atKey_cons_self]

/-- On a miss, a `get` call that does not throw always reaches the admission
step: its outcome is `load` applied to an intermediate state whose map and
recency list are included in the original ones. -/
theorem ImageCache.get_miss_ok_cases (c : ImageCache) (pix : PixelType)
    (probe : String → Nat × Nat) (freshId : Nat) (filename : String) (lvl : Nat)
    (h1 : reqKeyOf pix filename lvl ∉ c.keys)
    (hok : ∃ r, (c.get pix probe freshId filename lvl).result = .ok r) :
    ∃ c' : ImageCache,
      c.get pix probe freshId filename lvl =
        { result := .ok ((atKey (c'.load pix probe freshId (reqKeyOf pix filename lvl)).imagePtrs
            (reqKeyOf pix filename lvl)).get pix)
          state := c'.load pix probe freshId (reqKeyOf pix filename lvl)
          loadCalls := 1 } ∧
      c'.imagePtrs ⊆ c.imagePtrs ∧ c'.keys ⊆ c.keys := by
  by_cases h2 : memSizeOf pix probe filename lvl + c.memUsage.contentSize ≤ c.memUsage.capacity
  · exact ⟨c, ImageCache.get_miss_fits c pix probe freshId filename lvl h1 h2,
      fun _ h => h, fun _ h => h⟩
  · cases hfind : c.keys.find? (isUnusedFit c.imagePtrs
        (memSizeOf pix probe filename lvl + c.memUsage.contentSize - c.memUsage.capacity)) with
    | some key =>
      refine ⟨c.evictKey key,
        ImageCache.get_miss_single c pix probe freshId filename lvl key h1 h2 hfind, ?_, ?_⟩
      · rw [ImageCache.evictKey_imagePtrs]
        exact eraseKey_subset _ _
      · rw [ImageCache.evictKey_keys]
        exact List.erase_subset _ _
    | none =>
      by_cases h4 : memSizeOf pix probe filename lvl +
          (multiEvictLoop (memSizeOf pix probe filename lvl + c.memUsage.contentSize -
            c.memUsage.capacity) (c.keys.length + 1) c).memUsage.contentSize ≤
          c.memUsage.maxSize
      · exact ⟨multiEvictLoop (memSizeOf pix probe filename lvl + c.memUsage.contentSize -
            c.memUsage.capacity) (c.keys.length + 1) c,
          ImageCache.get_miss_multi_fits c pix probe freshId filename lvl h1 h2 hfind h4,
          imagePtrs_multiEvictLoop_subset _ _ _, keys_multiEvictLoop_subset _ _ _⟩
      · exfalso
        obtain ⟨r, hr⟩ := hok
        rw [ImageCache.get_miss_multi_throw c pix probe freshId filename lvl h1 h2 hfind h4]
          at hr
        exact Except.noConfusion hr

/-! ### Claim theorems -/

/-- C8: at construction the cache converts `capacity_MB` and `maxSize_MB` to
byte thresholds with the decimal convention 1 MB = 1,000,000 bytes (whenever
the products fit in a 32-bit `int`), starts with `nbImages = 0` and
`contentSize = 0`, and performs no check that `capacity ≤ maxSize` — the
constructor is total and the theorem applies just as well when
`maxSize_MB < capacity_MB`. -/
theorem claim_C8_construction (capacity_MB maxSize_MB : Int)
    (hc1 : -(2 ^ 31) ≤ capacity_MB * 1000000) (hc2 : capacity_MB * 1000000 < 2 ^ 31)
    (hm1 : -(2 ^ 31) ≤ maxSize_MB * 1000000) (hm2 : maxSize_MB * 1000000 < 2 ^ 31) :
    CacheMemoryUsage.ofMB capacity_MB maxSize_MB =
      { capacity := capacity_MB * 1000000
        maxSize := maxSize_MB * 1000000
        nbImages := 0
        contentSize := 0 } := by
  rw [CacheMemoryUsage.ofMB, wrap32_eq_self hc1 hc2, wrap32_eq_self hm1 hm2]

/-- Witness for C8 at `capacity_MB = 10`, `maxSize_MB = 5`: the construction
succeeds and yields `capacity = 10^7 > maxSize = 5*10^6`, showing no
`capacity ≤ maxSize` validation happens. -/
theorem claim_C8_construction_witness :
    CacheMemoryUsage.ofMB 10 5 =
      { capacity := 10000000, maxSize := 5000000, nbImages := 0, contentSize := 0 } ∧
    (CacheMemoryUsage.ofMB 10 5).maxSize < (CacheMemoryUsage.ofMB 10 5).capacity :=
  ⟨claim_C8_construction 10 5 (by norm_num) (by norm_num) (by norm_num) (by norm_num),
    by decide⟩

/-- C9: all byte thresholds and per-request sizes are 32-bit `int` products:
the constructor stores `wrap32 (MB * 10^6)` and the request size is
`wrap32 ((w / 2^level) * (h / 2^level) * sizeof(TPix))`, so
`capacity_MB = 2148` yields the wrapped negative capacity
`2148000000 - 2^32 = -2146967296`, and a 16384x16384 RGBA-float image
(4 GiB) is accounted as 0 bytes. -/
theorem claim_C9_int32_wraparound :
    (∀ capacity_MB maxSize_MB : Int,
      (CacheMemoryUsage.ofMB capacity_MB maxSize_MB).capacity =
        wrap32 (capacity_MB * 1000000) ∧
      (CacheMemoryUsage.ofMB capacity_MB maxSize_MB).maxSize =
        wrap32 (maxSize_MB * 1000000)) ∧
    (∀ (pix : PixelType) (w h lvl : Nat), requiredBytes pix w h lvl =
      wrap32 (((w / 2 ^ lvl) * (h / 2 ^ lvl) * sizeofPix pix : Nat) : Int)) ∧
    (CacheMemoryUsage.ofMB 2148 2148).capacity = 2148000000 - 2 ^ 32 ∧
    (CacheMemoryUsage.ofMB 2148 2148).capacity < 0 ∧
    requiredBytes .rgbafPix 16384 16384 0 = 0 := by
  refine ⟨fun a b => ⟨rfl, rfl⟩, fun p w h l => rfl, by decide, by decide, by decide⟩

/-- C4: no execution of `get`, from any cache state, evicts an entry whose
reference count differs from 1 at the moment of the eviction decision: every
key resident before the call and absent after it had `useCount = 1`. -/
theorem claim_C4_eviction_safety (c : ImageCache) (pix : PixelType)
    (probe : String → Nat × Nat) (freshId : Nat) (filename : String) (lvl : Nat)
    (k : CacheKey) (hin : k ∈ c.keys)
    (hout : k ∉ (c.get pix probe freshId filename lvl).state.keys) :
    (atKey c.imagePtrs k).useCount = 1 := by
  by_cases hmem : reqKeyOf pix filename lvl ∈ c.keys
  · rw [ImageCache.get_hit c pix probe freshId filename lvl hmem] at hout
    dsimp only at hout
    exfalso
    apply hout
    by_cases hk : k = reqKeyOf pix filename lvl
    · exact List.mem_append_right _ (by rw [hk]; exact List.mem_singleton_self _)
    · exact List.mem_append_left _ ((List.mem_erase_of_ne hk).mpr hin)
  · by_cases h2 : memSizeOf pix probe filename lvl + c.memUsage.contentSize ≤
        c.memUsage.capacity
    · rw [ImageCache.get_miss_fits c pix probe freshId filename lvl hmem h2] at hout
      dsimp only at hout
      rw [ImageCache.load_keys] at hout
      exact absurd (List.mem_append_left _ hin) hout
    · cases hfind : c.keys.find? (isUnusedFit c.imagePtrs
          (memSizeOf pix probe filename lvl + c.memUsage.contentSize -
            c.memUsage.capacity)) with
      | some key =>
        rw [ImageCache.get_miss_single c pix probe freshId filename lvl key hmem h2 hfind]
          at hout
        dsimp only at hout
        rw [ImageCache.load_keys, ImageCache.evictKey_keys] at hout
        by_cases hk : k = key
        · subst hk
          have hp := List.find?_some hfind
          simp only [isUnusedFit, Bool.and_eq_true, decide_eq_true_eq] at hp
          exact hp.1
        · exact absurd (List.mem_append_left _ ((List.mem_erase_of_ne hk).mpr hin)) hout
      | none =>
        by_cases h4 : memSizeOf pix probe filename lvl +
            (multiEvictLoop (memSizeOf pix probe filename lvl + c.memUsage.contentSize -
              c.memUsage.capacity) (c.keys.length + 1) c).memUsage.contentSize ≤
            c.memUsage.maxSize
        · rw [ImageCache.get_miss_multi_fits c pix probe freshId filename lvl hmem h2 hfind h4]
            at hout
          dsimp only at hout
          rw [ImageCache.load_keys] at hout
          by_cases hloop : k ∈ (multiEvictLoop (memSizeOf pix probe filename lvl +
              c.memUsage.contentSize - c.memUsage.capacity) (c.keys.length + 1) c).keys
          · exact absurd (List.mem_append_left _ hloop) hout
          · exact multiEvictLoop_evicts_only_unused _ _ c k hin hloop
        · rw [ImageCache.get_miss_multi_throw c pix probe freshId filename lvl hmem h2 hfind h4]
            at hout
          dsimp only at hout
          exact multiEvictLoop_evicts_only_unused _ _ c k hin hout

/-- Witness for C4: in `cSingle` the 4-byte request for file `r` evicts the
resident entry `a`, and that entry indeed had `useCount = 1`. -/
theorem claim_C4_eviction_safety_witness :
    kA ∈ cSingle.keys ∧ kA ∉ (cSingle.get .ucharPix probeW 7 "r" 0).state.keys ∧
    (atKey cSingle.imagePtrs kA).useCount = 1 :=
  ⟨by decide, by decide,
    claim_C4_eviction_safety cSingle .ucharPix probeW 7 "r" 0 kA (by decide) (by decide)⟩

/-- C3: in every reachable cache state (after any sequence of completed
`get` calls and environment handle changes), the recency list and the map
carry the same key set, `nbImages` equals the number of mapped keys, and
`contentSize` equals the sum of the byte sizes of the resident values. -/
theorem claim_C3_structural_invariant (c : ImageCache) (h : Reachable c) :
    (∀ k : CacheKey, k ∈ c.keys ↔ k ∈ c.imagePtrs.map Prod.fst) ∧
    c.memUsage.nbImages = (c.imagePtrs.length : Int) ∧
    c.memUsage.contentSize = sumSizes c.imagePtrs := by
  obtain ⟨hperm, hnd, hcount, hsum, hwt⟩ := reachable_inv h
  exact ⟨fun k => hperm.mem_iff, hcount, hsum⟩

/-- Witness for C3: the invariant instantiated at the reachable state left
by a successful load of file `a` into a fresh cache. -/
theorem claim_C3_structural_invariant_witness :
    (∀ k : CacheKey, k ∈ ((ImageCache.mkEmpty 1 1).get .ucharPix probeW 5 "a" 0).state.keys ↔
      k ∈ ((ImageCache.mkEmpty 1 1).get .ucharPix probeW 5 "a" 0).state.imagePtrs.map
        Prod.fst) ∧
    ((ImageCache.mkEmpty 1 1).get .ucharPix probeW 5 "a" 0).state.memUsage.nbImages =
      ((((ImageCache.mkEmpty 1 1).get .ucharPix probeW 5 "a" 0).state.imagePtrs.length :
        Nat) : Int) ∧
    ((ImageCache.mkEmpty 1 1).get .ucharPix probeW 5 "a" 0).state.memUsage.contentSize =
      sumSizes ((ImageCache.mkEmpty 1 1).get .ucharPix probeW 5 "a" 0).state.imagePtrs :=
  claim_C3_structural_invariant _ (Reachable.get .ucharPix probeW 5 "a" 0 (Reachable.mkEmpty 1 1))

/-- C10: the map from the six pixel types to (channel count, sample type)
is injective, and whenever a `get` from a reachable state takes the hit path
(the built key is in the recency list), the returned shared pointer is
non-null: the matching entry was necessarily created by the `wrap` variant
of the requested pixel type, so the typed accessor yields its stored
pointer. -/
theorem claim_C10_hit_nonnull :
    (∀ p q : PixelType, ColorTypeInfo.size p = ColorTypeInfo.size q →
      ColorTypeInfo.typeDesc p = ColorTypeInfo.typeDesc q → p = q) ∧
    ∀ (c : ImageCache) (pix : PixelType) (probe : String → Nat × Nat) (freshId : Nat)
      (filename : String) (lvl : Nat), Reachable c → reqKeyOf pix filename lvl ∈ c.keys →
      ∃ img : ImgPtr, (c.get pix probe freshId filename lvl).result = .ok (some img) := by
  refine ⟨pixInfo_injective, ?_⟩
  intro c pix probe freshId filename lvl hreach hmem
  obtain ⟨hperm, hnd, hcount, hsum, hwt⟩ := reachable_inv hreach
  rw [ImageCache.get_hit c pix probe freshId filename lvl hmem]
  dsimp only
  have hmemf : reqKeyOf pix filename lvl ∈ c.imagePtrs.map Prod.fst := hperm.mem_iff.mp hmem
  obtain ⟨pix', img, hwrap, hch, htd⟩ := hwt _ (mem_of_atKey _ _ hmemf)
  have hpix : pix' = pix := by
    refine pixInfo_injective pix' pix ?_ ?_
    · exact hch.symm
    · exact htd.symm
  rw [hpix] at hwrap
  refine ⟨img, ?_⟩
  rw [show atKey c.imagePtrs (reqKeyOf pix filename lvl) =
    ((reqKeyOf pix filename lvl), atKey c.imagePtrs (reqKeyOf pix filename lvl)).2 from rfl,
    hwrap, CacheValue.get_wrap_self]

/-- Witness for C10: a hit on file `a` right after it was admitted into a
fresh cache returns a non-null pointer. -/
theorem claim_C10_hit_nonnull_witness :
    ∃ img : ImgPtr,
      (((ImageCache.mkEmpty 1 1).get .ucharPix probeW 3 "a" 0).state.get
        .ucharPix probeW 9 "a" 0).result = .ok (some img) :=
  claim_C10_hit_nonnull.2 _ .ucharPix probeW 9 "a" 0
    (Reachable.get .ucharPix probeW 3 "a" 0 (Reachable.mkEmpty 1 1)) (by decide)

/-- C2: when a miss exceeds the capacity and the LRU-to-MRU scan finds a
first entry with `useCount = 1` and `memorySize ≥ missing`, `get` evicts
exactly that entry and admits the new one: the victim satisfied both
eligibility conditions, the final state is `load` after `evictKey`, the
returned pointer is the freshly decoded buffer, and every other resident
entry survives with its value untouched — in particular an older externally
referenced entry survives while the younger unreferenced one is evicted. -/
theorem claim_C2_single_victim (c : ImageCache) (pix : PixelType)
    (probe : String → Nat × Nat) (freshId : Nat) (filename : String) (lvl : Nat)
    (victim : CacheKey)
    (h1 : reqKeyOf pix filename lvl ∉ c.keys)
    (h1m : reqKeyOf pix filename lvl ∉ c.imagePtrs.map Prod.fst)
    (h2 : ¬ memSizeOf pix probe filename lvl + c.memUsage.contentSize ≤ c.memUsage.capacity)
    (h3 : c.keys.find? (isUnusedFit c.imagePtrs (memSizeOf pix probe filename lvl +
      c.memUsage.contentSize - c.memUsage.capacity)) = some victim) :
    (atKey c.imagePtrs victim).useCount = 1 ∧
    memSizeOf pix probe filename lvl + c.memUsage.contentSize - c.memUsage.capacity ≤
      (atKey c.imagePtrs victim).memorySize ∧
    (c.get pix probe freshId filename lvl).state =
      (c.evictKey victim).load pix probe freshId (reqKeyOf pix filename lvl) ∧
    (c.get pix probe freshId filename lvl).result =
      .ok (some ⟨freshId, 2, memSizeOf pix probe filename lvl⟩) ∧
    (c.get pix probe freshId filename lvl).loadCalls = 1 ∧
    ∀ k ∈ c.keys, k ≠ victim →
      k ∈ (c.get pix probe freshId filename lvl).state.keys ∧
      atKey (c.get pix probe freshId filename lvl).state.imagePtrs k =
        atKey c.imagePtrs k := by
  have hp := List.find?_some h3
  simp only [isUnusedFit, Bool.and_eq_true, decide_eq_true_eq] at hp
  have hrw := ImageCache.get_miss_single c pix probe freshId filename lvl victim h1 h2 h3
  have hnot : reqKeyOf pix filename lvl ∉ (c.evictKey victim).imagePtrs.map Prod.fst := by
    rw [ImageCache.evictKey_imagePtrs, map_fst_eraseKey]
    intro hmm
    exact h1m (List.mem_of_mem_erase hmm)
  have hat := atKey_load_self (c.evictKey victim) pix probe freshId
    (reqKeyOf pix filename lvl) hnot
  refine ⟨hp.1, hp.2, by rw [hrw], ?_, by rw [hrw], ?_⟩
  · rw [hrw]
    dsimp only
    rw [hat, CacheValue.get_wrap_self]
    exact rfl
  · intro k hk hkne
    have hkK : reqKeyOf pix filename lvl ≠ k := fun hh => h1 (hh ▸ hk)
    constructor
    · rw [hrw]
      dsimp only
      rw [ImageCache.load_keys, ImageCache.evictKey_keys]
      exact List.mem_append_left _ ((List.mem_erase_of_ne hkne).mpr hk)
    · rw [hrw]
      dsimp only
      rw [ImageCache.load_imagePtrs, atKey_insertPtr_ne _ _ _ _ hkK,
        ImageCache.evictKey_imagePtrs, atKey_eraseKey_ne _ hkne]

/-- Witness for C2, Scenario C: in `cScenC` the request for file `r` evicts
only the younger unreferenced entry `q`; the older externally referenced
entry `p` survives untouched. -/
theorem claim_C2_single_victim_witness :
    (atKey cScenC.imagePtrs kQ).useCount = 1 ∧
    kP ∈ (cScenC.get .ucharPix probeW 7 "r" 0).state.keys ∧
    atKey (cScenC.get .ucharPix probeW 7 "r" 0).state.imagePtrs kP =
      atKey cScenC.imagePtrs kP ∧
    kQ ∉ (cScenC.get .ucharPix probeW 7 "r" 0).state.keys ∧
    (cScenC.get .ucharPix probeW 7 "r" 0).result = .ok (some ⟨7, 2, 4⟩) := by
  have h := claim_C2_single_victim cScenC .ucharPix probeW 7 "r" 0 kQ (by decide) (by decide)
    (by decide) (by decide)
  exact ⟨h.1, (h.2.2.2.2.2 kP (by decide) (by decide)).1,
    (h.2.2.2.2.2 kP (by decide) (by decide)).2, by decide, by decide⟩

/-- C5: when a miss exceeds the capacity, no single victim exists, and even
after the multi-victim loop the request exceeds `maxSize`, `get` throws the
resource-exhaustion error, creates no entry, and keeps exactly the state
left by the loop (evictions are not rolled back); when additionally every
resident entry is externally referenced, the failing call leaves the whole
state — in particular `nbImages` and `contentSize` — unchanged. -/
theorem claim_C5_exhaustion (c : ImageCache) (pix : PixelType)
    (probe : String → Nat × Nat) (freshId : Nat) (filename : String) (lvl : Nat)
    (h1 : reqKeyOf pix filename lvl ∉ c.keys)
    (h2 : ¬ memSizeOf pix probe filename lvl + c.memUsage.contentSize ≤ c.memUsage.capacity)
    (h3 : c.keys.find? (isUnusedFit c.imagePtrs (memSizeOf pix probe filename lvl +
      c.memUsage.contentSize - c.memUsage.capacity)) = none)
    (h4 : ¬ memSizeOf pix probe filename lvl +
        (multiEvictLoop (memSizeOf pix probe filename lvl + c.memUsage.contentSize -
          c.memUsage.capacity) (c.keys.length + 1) c).memUsage.contentSize ≤
      c.memUsage.maxSize) :
    (c.get pix probe freshId filename lvl).result = .error () ∧
    (c.get pix probe freshId filename lvl).state =
      multiEvictLoop (memSizeOf pix probe filename lvl + c.memUsage.contentSize -
        c.memUsage.capacity) (c.keys.length + 1) c ∧
    reqKeyOf pix filename lvl ∉ (c.get pix probe freshId filename lvl).state.keys ∧
    ((∀ k ∈ c.keys, (atKey c.imagePtrs k).useCount ≠ 1) →
      (c.get pix probe freshId filename lvl).state = c) := by
  have hrw := ImageCache.get_miss_multi_throw c pix probe freshId filename lvl h1 h2 h3 h4
  refine ⟨by rw [hrw], by rw [hrw], ?_, ?_⟩
  · rw [hrw]
    dsimp only
    intro hmm
    exact h1 (keys_multiEvictLoop_subset _ _ _ hmm)
  · intro hall
    rw [hrw]
    dsimp only
    apply multiEvictLoop_of_find?_none
    rw [List.find?_eq_none]
    intro k hk
    simp only [isUnused, decide_eq_true_eq]
    exact hall k hk

/-- Witness for C5: in `cAllRef` (one externally referenced entry, request
over both thresholds) `get` fails and leaves the state unchanged. -/
theorem claim_C5_exhaustion_witness :
    (cAllRef.get .ucharPix probeW 7 "r" 0).result = .error () ∧
    (cAllRef.get .ucharPix probeW 7 "r" 0).state = cAllRef := by
  have h := claim_C5_exhaustion cAllRef .ucharPix probeW 7 "r" 0 (by decide) (by decide)
    (by decide) (by decide)
  exact ⟨h.1, h.2.2.2 (by decide)⟩

/-- C7 (amended): on a miss `get` computes the required bytes as
`(width >> level) * (height >> level) * sizeof(TPix)` from the probed
dimensions, and IF `contentSize + required ≤ capacity` it admits directly:
one load, no eviction, the new key appended MRU, counters increased by
exactly the new entry, and every other entry untouched. (The converse of
the original claim is false, see the counterexample: an over-capacity miss
with no evictable entry is also admitted without eviction when it fits
under `maxSize`.) -/
theorem claim_C7_direct_admission (c : ImageCache) (pix : PixelType)
    (probe : String → Nat × Nat) (freshId : Nat) (filename : String) (lvl : Nat)
    (h1 : reqKeyOf pix filename lvl ∉ c.keys) :
    memSizeOf pix probe filename lvl =
      wrap32 (((((probe filename).1 >>> lvl) * ((probe filename).2 >>> lvl) *
        sizeofPix pix : Nat)) : Int) ∧
    (memSizeOf pix probe filename lvl + c.memUsage.contentSize ≤ c.memUsage.capacity →
      (c.get pix probe freshId filename lvl).state =
        c.load pix probe freshId (reqKeyOf pix filename lvl) ∧
      (c.get pix probe freshId filename lvl).loadCalls = 1 ∧
      (c.get pix probe freshId filename lvl).state.keys =
        c.keys ++ [reqKeyOf pix filename lvl] ∧
      (c.get pix probe freshId filename lvl).state.memUsage.nbImages =
        c.memUsage.nbImages + 1 ∧
      (c.get pix probe freshId filename lvl).state.memUsage.contentSize =
        c.memUsage.contentSize + memSizeOf pix probe filename lvl ∧
      ∀ k ∈ c.keys,
        k ∈ (c.get pix probe freshId filename lvl).state.keys ∧
        atKey (c.get pix probe freshId filename lvl).state.imagePtrs k =
          atKey c.imagePtrs k) := by
  constructor
  · show requiredBytes pix (probe filename).1 (probe filename).2 lvl = _
    simp only [requiredBytes]
    rw [Nat.shiftRight_eq_div_pow, Nat.shiftRight_eq_div_pow]
  · intro h2
    have hrw := ImageCache.get_miss_fits c pix probe freshId filename lvl h1 h2
    refine ⟨by rw [hrw], by rw [hrw], ?_, ?_, ?_, ?_⟩
    · rw [hrw]
      dsimp only
      rw [ImageCache.load_keys]
    · rw [hrw]
      dsimp only
      rw [ImageCache.load_nbImages]
    · rw [hrw]
      dsimp only
      rw [ImageCache.load_contentSize]
      exact rfl
    · intro k hk
      have hkK : reqKeyOf pix filename lvl ≠ k := fun hh => h1 (hh ▸ hk)
      refine ⟨?_, ?_⟩
      · rw [hrw]
        dsimp only
        rw [ImageCache.load_keys]
        exact List.mem_append_left _ hk
      · rw [hrw]
        dsimp only
        rw [ImageCache.load_imagePtrs, atKey_insertPtr_ne _ _ _ _ hkK]

/-- Counterexample to C7 as stated: in `cRefAdmit` the request for file `r`
exceeds the capacity (9 > 8), yet the entry is admitted with one load, no
eviction, and no change to the resident entry — refuting the
"only if `contentSize + required ≤ capacity`" direction. -/
theorem claim_C7_direct_admission_counterexample :
    ¬ (memSizeOf .ucharPix probeW "r" 0 + cRefAdmit.memUsage.contentSize ≤
      cRefAdmit.memUsage.capacity) ∧
    (cRefAdmit.get .ucharPix probeW 7 "r" 0).loadCalls = 1 ∧
    (cRefAdmit.get .ucharPix probeW 7 "r" 0).result = .ok (some ⟨7, 2, 4⟩) ∧
    (cRefAdmit.get .ucharPix probeW 7 "r" 0).state.keys =
      [kP, reqKeyOf .ucharPix "r" 0] ∧
    atKey (cRefAdmit.get .ucharPix probeW 7 "r" 0).state.imagePtrs kP =
      atKey cRefAdmit.imagePtrs kP ∧
    (cRefAdmit.get .ucharPix probeW 7 "r" 0).state.memUsage.nbImages =
      cRefAdmit.memUsage.nbImages + 1 := by
  decide

/-- Witness for the amended C7: a fresh cache admits file `a` directly. -/
theorem claim_C7_direct_admission_witness :
    memSizeOf .ucharPix probeW "a" 0 =
      wrap32 (((((probeW "a").1 >>> 0) * ((probeW "a").2 >>> 0) *
        sizeofPix .ucharPix : Nat)) : Int) ∧
    ((ImageCache.mkEmpty 1 1).get .ucharPix probeW 9 "a" 0).state =
      (ImageCache.mkEmpty 1 1).load .ucharPix probeW 9 (reqKeyOf .ucharPix "a" 0) ∧
    ((ImageCache.mkEmpty 1 1).get .ucharPix probeW 9 "a" 0).loadCalls = 1 := by
  have h := claim_C7_direct_admission (ImageCache.mkEmpty 1 1) .ucharPix probeW 9 "a" 0
    (by decide)
  have h2 := h.2 (by decide)
  exact ⟨h.1, h2.1, h2.2.1⟩

/-- C6: from any reachable state in which the requested key is not yet
resident, a successful `get` followed by an identical `get` (no intervening
requests) decodes exactly once (`loadCalls` 1 then 0), both calls return
handles to the same underlying buffer, and the second call still repositions
the key at the MRU end of the recency order. -/
theorem claim_C6_idempotent (c : ImageCache) (pix : PixelType) (probe : String → Nat × Nat)
    (freshId1 freshId2 : Nat) (filename : String) (lvl : Nat)
    (hreach : Reachable c)
    (h1 : reqKeyOf pix filename lvl ∉ c.keys)
    (hok : ∃ r, (c.get pix probe freshId1 filename lvl).result = .ok r) :
    ∃ img : ImgPtr,
      (c.get pix probe freshId1 filename lvl).result = .ok (some img) ∧
      ((c.get pix probe freshId1 filename lvl).state.get pix probe freshId2 filename
        lvl).result = .ok (some img) ∧
      (c.get pix probe freshId1 filename lvl).loadCalls = 1 ∧
      ((c.get pix probe freshId1 filename lvl).state.get pix probe freshId2 filename
        lvl).loadCalls = 0 ∧
      ((c.get pix probe freshId1 filename lvl).state.get pix probe freshId2 filename
        lvl).state.keys = ((c.get pix probe freshId1 filename lvl).state.keys.erase
          (reqKeyOf pix filename lvl)) ++ [reqKeyOf pix filename lvl] ∧
      ((c.get pix probe freshId1 filename lvl).state.get pix probe freshId2 filename
        lvl).state.keys.getLast? = some (reqKeyOf pix filename lvl) := by
  obtain ⟨hperm, hnd, hcount, hsum, hwt⟩ := reachable_inv hreach
  have h1m : reqKeyOf pix filename lvl ∉ c.imagePtrs.map Prod.fst :=
    fun hm => h1 (hperm.mem_iff.mpr hm)
  obtain ⟨c', hrw, hsubm, hsubk⟩ :=
    ImageCache.get_miss_ok_cases c pix probe freshId1 filename lvl h1 hok
  have h1m' : reqKeyOf pix filename lvl ∉ c'.imagePtrs.map Prod.fst :=
    fun hm => h1m (List.map_subset Prod.fst hsubm hm)
  have hat := atKey_load_self c' pix probe freshId1 (reqKeyOf pix filename lvl) h1m'
  have hmem1 : reqKeyOf pix filename lvl ∈
      (c.get pix probe freshId1 filename lvl).state.keys := by
    rw [hrw]
    dsimp only
    rw [ImageCache.load_keys]
    exact List.mem_append_right _ (List.mem_singleton_self _)
  have hrw2 := ImageCache.get_hit (c.get pix probe freshId1 filename lvl).state pix probe
    freshId2 filename lvl hmem1
  have hsame : (c.get pix probe freshId1 filename lvl).state.imagePtrs =
      (c'.load pix probe freshId1 (reqKeyOf pix filename lvl)).imagePtrs := by
    rw [hrw]
  refine ⟨⟨freshId1, 2, memSizeOf pix probe filename lvl⟩, ?_, ?_, ?_, ?_, ?_, ?_⟩
  · rw [hrw]
    dsimp only
    rw [hat, CacheValue.get_wrap_self]
    exact rfl
  · rw [hrw2]
    dsimp only
    rw [hsame, hat, CacheValue.get_wrap_self]
    exact rfl
  · rw [hrw]
  · rw [hrw2]
  · rw [hrw2]
  · rw [hrw2]
    dsimp only
    rw [List.getLast?_concat]

/-- Witness for C6: loading file `a` twice into a fresh cache decodes once,
returns the same buffer twice, and leaves the key at the MRU end. -/
theorem claim_C6_idempotent_witness :
    ∃ img : ImgPtr,
      ((ImageCache.mkEmpty 1 1).get .ucharPix probeW 5 "a" 0).result = .ok (some img) ∧
      (((ImageCache.mkEmpty 1 1).get .ucharPix probeW 5 "a" 0).state.get .ucharPix probeW 6
        "a" 0).result = .ok (some img) ∧
      ((ImageCache.mkEmpty 1 1).get .ucharPix probeW 5 "a" 0).loadCalls = 1 ∧
      (((ImageCache.mkEmpty 1 1).get .ucharPix probeW 5 "a" 0).state.get .ucharPix probeW 6
        "a" 0).loadCalls = 0 ∧
      (((ImageCache.mkEmpty 1 1).get .ucharPix probeW 5 "a" 0).state.get .ucharPix probeW 6
        "a" 0).state.keys = ((((ImageCache.mkEmpty 1 1).get .ucharPix probeW 5 "a"
          0).state.keys.erase (reqKeyOf .ucharPix "a" 0)) ++ [reqKeyOf .ucharPix "a" 0]) ∧
      (((ImageCache.mkEmpty 1 1).get .ucharPix probeW 5 "a" 0).state.get .ucharPix probeW 6
        "a" 0).state.keys.getLast? = some (reqKeyOf .ucharPix "a" 0) :=
  claim_C6_idempotent (ImageCache.mkEmpty 1 1) .ucharPix probeW 5 6 "a" 0
    (Reachable.mkEmpty 1 1) (by decide) ⟨some ⟨5, 2, 5⟩, by decide⟩

/-- C1 (behavior of the source as written): in `cMulti` the request for file
`r` has `missing = 4`, the single-victim pass finds nothing, and evicting
the two least-recently-used unreferenced entries (3 + 3 = 6 ≥ 4 bytes)
would already cover the deficit — yet the multi-victim loop, whose
`missingCapacity` is never decremented, also evicts the third unreferenced
entry `d`, emptying the cache before admitting the request. -/
theorem claim_C1_multi_victim_evicts_all :
    memSizeOf .ucharPix probeW "r" 0 + cMulti.memUsage.contentSize -
      cMulti.memUsage.capacity = 4 ∧
    cMulti.keys.find? (isUnusedFit cMulti.imagePtrs 4) = none ∧
    (atKey cMulti.imagePtrs kB).memorySize + (atKey cMulti.imagePtrs kC).memorySize ≥ 4 ∧
    (atKey cMulti.imagePtrs kD).useCount = 1 ∧
    kD ∉ (cMulti.get .ucharPix probeW 7 "r" 0).state.keys ∧
    (cMulti.get .ucharPix probeW 7 "r" 0).state.keys = [reqKeyOf .ucharPix "r" 0] ∧
    (cMulti.get .ucharPix probeW 7 "r" 0).state.memUsage.contentSize = 4 ∧
    (cMulti.get .ucharPix probeW 7 "r" 0).state.memUsage.nbImages = 1 := by
  decide
